import Mathlib

/-!
Shallow embedding of the revision-diffing core of `commonsdiff.py`
(class `CommonsFile` and helpers), together with theorems settling the
frozen claims about its specification.

External collaborators (network fetches, `pywikibot`, `mwparserfromhell`
parsing) are modelled as data already supplied to the functions: a page's
revision list is a `List Revision` as delivered by the revision source
(newest first), a parsed wikitext is a `List Template`, and a
structured-data JSON document is an `SdcDoc` with `Option`-valued fields
mirroring Python's `dict.get` returning `None` on a missing key.
Python code that would raise (`None.get`, iterating `None`) is embedded
as `Except String` with an error value.
-/

namespace CommonsDiff

/-! ## Definitions: the embedded program -/

/-- A page revision as used by `get_baseline_revision` /
`get_first_rev_not_by_uploader`: revision id, stable user identifier
(`userid`), and timestamp.  The revision list of a page is supplied
newest first, as `pywikibot`'s `Page.revisions()` yields it. -/
structure Revision where
  revid : Nat
  userid : Nat
  timestamp : Nat
deriving DecidableEq, Repr

/-- The `revs_before_cutoff` list built by `get_baseline_revision`:
revisions with `timestamp < baseline_date`, kept in input (newest-first)
order. -/
def revs_before_cutoff (cutoff : Nat) (all_revisions : List Revision) : List Revision :=
  all_revisions.filter (fun r => decide (r.timestamp < cutoff))

/-- Model of `CommonsFile.get_first_rev_not_by_uploader`: `uploader` is
`all_revisions[-1]["userid"]` (the oldest revision's author, the list
being newest first); the scan `for rev in reversed(all_revisions[:-1])`
walks the remaining revisions oldest to newest and returns the first one
whose `userid` differs; otherwise `all_revisions[0]` (the newest
revision) is returned.  An empty list would raise an `IndexError` in
Python; that case is `none` here. -/
def get_first_rev_not_by_uploader (all_revisions : List Revision) : Option Revision :=
  match all_revisions.getLast? with
  | none => none
  | some last =>
    match all_revisions.dropLast.reverse.find? (fun r => decide (r.userid ≠ last.userid)) with
    | some rev => some rev
    | none => all_revisions.head?

/-- Model of `CommonsFile.get_baseline_revision`: collect the revisions strictly
before the cutoff; if none exist, fall back to
`get_first_rev_not_by_uploader`, else return `revs_before_cutoff[0]`
(the first, i.e. newest, element of the newest-first filtered list). -/
def get_baseline_revision (cutoff : Nat) (all_revisions : List Revision) : Option Revision :=
  let before := revs_before_cutoff cutoff all_revisions
  if before.length = 0 then
    get_first_rev_not_by_uploader all_revisions
  else
    before.head?

/-- A template invocation as delivered by `mwparserfromhell`'s
`filter_templates()`: a raw name and an ordered list of
(parameter name, parameter value) pairs.  Parsing itself is an external
collaborator; `get_field_content` receives its output. -/
structure Template where
  name : String
  params : List (String × String)
deriving DecidableEq, Repr

/-- Python's `str.strip()` / `mwparserfromhell`'s `.strip()` on names and
values: drop leading and trailing whitespace.  (Defined over the
character list so that it evaluates by kernel reduction.) -/
def strip (s : String) : String :=
  String.mk (((s.data.dropWhile Char.isWhitespace).reverse.dropWhile Char.isWhitespace).reverse)

/-- Model of `mwparserfromhell`'s `Template.get(name)`: trims the requested name
and scans the parameters in reverse order (later duplicates of a
parameter override earlier ones, as in MediaWiki), returning the value
of the match. -/
def template_get (t : Template) (name : String) : Option String :=
  let n := strip name
  (t.params.reverse.find? (fun p => strip p.1 == n)).map (fun p => p.2)

/-- Model of `CommonsFile.get_field_content`: walk all template invocations; for
one whose trimmed name equals `info_template`, if it has a parameter
whose trimmed name equals `field_name`, return that parameter's value
trimmed.  When the name matches but the field is absent the Python loop
simply continues with the next invocation; when no invocation returns,
the function falls off the end and yields `None`. -/
def get_field_content (info_template field_name : String) : List Template → Option String
  | [] => none
  | t :: rest =>
    if strip t.name == info_template then
      if t.params.any (fun p => strip p.1 == field_name) then
        (template_get t field_name).map strip
      else
        get_field_content info_template field_name rest
    else
      get_field_content info_template field_name rest

/-- The behaviour `get_field_content` actually has, stated directly: the
value comes from the first invocation whose trimmed name matches and
which has the field; invocations lacking the field are skipped. -/
def get_field_content_spec (info_template field_name : String) (ts : List Template) :
    Option String :=
  match ts.find? (fun t =>
      strip t.name == info_template && t.params.any (fun p => strip p.1 == field_name)) with
  | some t => (template_get t field_name).map strip
  | none => none

/-- The `added` list built by `process_categories`, `process_captions`
and `process_statements`: iterate the current values and keep those not
contained in the baseline values (duplicates preserved, in current
order). -/
def added_list {α : Type} [DecidableEq α] (old current : List α) : List α :=
  current.filter (fun x => decide (x ∉ old))

/-- The `removed` list built by `process_categories`, `process_captions`
and `process_statements`: iterate the baseline values and keep those not
contained in the current values. -/
def removed_list {α : Type} [DecidableEq α] (old current : List α) : List α :=
  old.filter (fun x => decide (x ∉ current))

/-- An added/removed pair as returned by the three `process_*` delta
functions. -/
structure Delta (α : Type) where
  added : List α
  removed : List α
deriving DecidableEq, Repr

/-- The record built by `CommonsFile.process_descriptions`. -/
structure Descriptions where
  old : Option String
  new : Option String
  changed : Bool
deriving DecidableEq, Repr

/-- Model of `CommonsFile.process_descriptions`: apply the field extractor to the
current and baseline page contents (given here as their parsed template
lists) and set `changed` exactly when the two results differ; a missing
template or field yields `none`, which differs from every `some`
value. -/
def process_descriptions (templ field : String)
    (current_page_content baseline_page_content : List Template) : Descriptions :=
  let current_description := get_field_content templ field current_page_content
  let baseline_description := get_field_content templ field baseline_page_content
  { old := baseline_description
    new := current_description
    changed := decide (baseline_description ≠ current_description) }

/-- One step of `re.findall(r"\[\[Category\:(.*?)\]\]", page_text)`:
starting right after a `[[Category:` opener, lazily capture characters
up to the first `]]`.  A newline fails the match (`.` does not match it)
and so does the end of the text. -/
def find_close : List Char → List Char → Option (String × List Char)
  | [], _ => none
  | ']' :: ']' :: rest, acc => some (String.mk acc.reverse, rest)
  | '\n' :: _, _ => none
  | c :: rest, acc => find_close rest (c :: acc)

/-- The scan of `re.findall`: at each position try to match
`[[Category:(.*?)]]`; on success emit the capture and continue after the
match, otherwise advance one character.  The fuel argument (initialised
with the text length) only serves structural recursion; each step
consumes at least one character. -/
def scan_categories : Nat → List Char → List String
  | 0, _ => []
  | _ + 1, [] => []
  | fuel + 1, c :: rest =>
    if (c :: rest).take 11 = "[[Category:".data then
      match find_close ((c :: rest).drop 11) [] with
      | some (cap, after) => cap :: scan_categories fuel after
      | none => scan_categories fuel rest
    else
      scan_categories fuel rest

/-- Model of `cat.split("|")[0]`: the part of the capture before the first pipe
(the whole capture when there is none). -/
def split_pipe_head (s : String) : String :=
  String.mk (s.data.takeWhile (fun c => decide (c ≠ '|')))

/-- Model of `CommonsFile.get_categories`: every regex capture, cut at the first
pipe. -/
def get_categories (page_text : String) : List String :=
  (scan_categories page_text.data.length page_text.data).map split_pipe_head

/-- Model of `CommonsFile.process_categories`: the two-way difference of the
baseline and current category lists. -/
def process_categories (current_page_content baseline_page_content : String) : Delta String :=
  let current_categories := get_categories current_page_content
  let baseline_categories := get_categories baseline_page_content
  { added := added_list baseline_categories current_categories
    removed := removed_list baseline_categories current_categories }

/-- The `value` object of a statement's `datavalue`; `.get("id")` yields
`None` when the `id` key is missing. -/
structure ValueObj where
  id : Option String
deriving DecidableEq, Repr

/-- The `datavalue` object of a main snak. -/
structure Datavalue where
  value : Option ValueObj
deriving DecidableEq, Repr

/-- The `mainsnak` object of one statement. -/
structure Mainsnak where
  datavalue : Option Datavalue
deriving DecidableEq, Repr

/-- One statement (`y` in the source loops), holding an optional
`mainsnak`. -/
structure StatementValue where
  mainsnak : Option Mainsnak
deriving DecidableEq, Repr

/-- A structured-data JSON document: an optional `labels` map
(language → object whose optional `value` field is the caption text) and
an optional `statements` map (property → list of statements).  Maps are
association lists in insertion order; a missing key is `none`, mirroring
`dict.get`. -/
structure SdcDoc where
  labels : Option (List (String × Option String))
  statements : Option (List (String × List StatementValue))
deriving DecidableEq, Repr

/-- Model of `dict.get(key)` on an association list: the payload of the first
entry with the key, or `none`. -/
def lookup {α : Type} (l : List (String × α)) (key : String) : Option α :=
  (l.find? (fun p => p.1 == key)).map (fun p => p.2)

/-- Model of `y.get("mainsnak").get("datavalue").get("value").get("id")`: each
missing intermediate object makes the next `.get` an attribute access on
`None`, which raises; a missing final `id` just gives `None`. -/
def get_statement_value (y : StatementValue) : Except String (Option String) :=
  match y.mainsnak with
  | none => .error "AttributeError"
  | some m =>
    match m.datavalue with
    | none => .error "AttributeError"
    | some d =>
      match d.value with
      | none => .error "AttributeError"
      | some v => .ok v.id

/-- A Python `for` loop collecting one result per element, aborting on
the first raised exception. -/
def exceptMapM {α β : Type} (f : α → Except String β) : List α → Except String (List β)
  | [] => .ok []
  | a :: as =>
    match f a with
    | .error e => .error e
    | .ok b =>
      match exceptMapM f as with
      | .error e => .error e
      | .ok bs => .ok (b :: bs)

/-- The `captions` list of `process_captions`: for each key of the
current label set, the pair `(key, labels.get(key).get('value'))`; an
absent or empty (falsy) label set yields no captions. -/
def current_captions (sdc : SdcDoc) : List (String × Option String) :=
  match sdc.labels with
  | none => []
  | some ls =>
    if ls.isEmpty then []
    else ls.map (fun p => (p.1, (lookup ls p.1).getD none))

/-- One iteration of the old-captions loop:
`{key: labels.get(key).get('value')}` where `labels` is the CURRENT
label set.  When the current label set is `None`, or lacks the key, the
chained `.get` is called on `None` and raises. -/
def old_caption_entry (labels : Option (List (String × Option String))) (key : String) :
    Except String (String × Option String) :=
  match labels with
  | none => .error "AttributeError"
  | some ls =>
    match lookup ls key with
    | none => .error "AttributeError"
    | some v => .ok (key, v)

/-- The `old_captions` list of `process_captions`: `none` for the
baseline SDC means the baseline revision has no `mediainfo` slot
(`old_mediainfo` falsy) and yields no old captions; otherwise the old
label keys are iterated, each paired with a text looked up in the
CURRENT label set. -/
def old_captions_list (current_labels : Option (List (String × Option String)))
    (old_sdc : Option SdcDoc) : Except String (List (String × Option String)) :=
  match old_sdc with
  | none => .ok []
  | some doc =>
    match doc.labels with
    | none => .ok []
    | some ols =>
      if ols.isEmpty then .ok []
      else exceptMapM (fun p => old_caption_entry current_labels p.1) ols

/-- Model of `CommonsFile.process_captions`: build current and old caption pair
lists and take the two-way difference. -/
def process_captions (sdc : SdcDoc) (old_sdc : Option SdcDoc) :
    Except String (Delta (String × Option String)) :=
  let captions := current_captions sdc
  match old_captions_list sdc.labels old_sdc with
  | .error e => .error e
  | .ok old_captions =>
    .ok { added := added_list old_captions captions
          removed := removed_list old_captions captions }

/-- Modelled from the spec: the caption delta with old captions drawn
from the baseline structured-data document's own label set, as §4.4 and
the §9 open question say they should be (`the old-document lookup is
authoritative`).  This is the behaviour claim C4 asserts; the code's
`process_captions` instead reads the texts from the current label set. -/
def process_captions_spec (sdc : SdcDoc) (old_sdc : Option SdcDoc) :
    Delta (String × Option String) :=
  let captions := current_captions sdc
  let old_captions :=
    match old_sdc with
    | none => []
    | some doc =>
      match doc.labels with
      | none => []
      | some ols => ols.map (fun p => (p.1, (lookup ols p.1).getD none))
  { added := added_list old_captions captions
    removed := removed_list old_captions captions }

/-- The nested statement loop shared by the current and baseline sides
of `process_statements`: for each property in the map, if it is in the
allow-list, emit one `(property, value-id)` pair per statement; the
main-snak chain raises on a malformed statement. -/
def extract_pairs (relevant_sdc : List String) :
    List (String × List StatementValue) → Except String (List (String × Option String))
  | [] => .ok []
  | (prop, ys) :: rest =>
    if relevant_sdc.contains prop then
      match exceptMapM get_statement_value ys with
      | .error e => .error e
      | .ok vals =>
        match extract_pairs relevant_sdc rest with
        | .error e => .error e
        | .ok tail => .ok (vals.map (fun v => (prop, v)) ++ tail)
    else
      extract_pairs relevant_sdc rest

/-- The `current_statements` of `process_statements`: guarded by
`if all_statements:`, so an absent or empty (falsy) statements map
yields no pairs. -/
def current_statements_list (sdc : SdcDoc) (relevant_sdc : List String) :
    Except String (List (String × Option String)) :=
  match sdc.statements with
  | none => .ok []
  | some stmts =>
    if stmts.isEmpty then .ok []
    else extract_pairs relevant_sdc stmts

/-- The `old_statements` of `process_statements`: when the baseline has
a `mediainfo` slot, `old_sdc_content.get("statements")` is iterated
WITHOUT a guard, so a document lacking the `statements` key makes the
`for` loop iterate `None` and raise a `TypeError`. -/
def old_statements_list (old_sdc : Option SdcDoc) (relevant_sdc : List String) :
    Except String (List (String × Option String)) :=
  match old_sdc with
  | none => .ok []
  | some doc =>
    match doc.statements with
    | none => .error "TypeError"
    | some stmts => extract_pairs relevant_sdc stmts

/-- Model of `CommonsFile.process_statements`: build current and old statement
pair lists and take the two-way difference. -/
def process_statements (sdc : SdcDoc) (old_sdc : Option SdcDoc) (relevant_sdc : List String) :
    Except String (Delta (String × Option String)) :=
  match current_statements_list sdc relevant_sdc with
  | .error e => .error e
  | .ok current_statements =>
    match old_statements_list old_sdc relevant_sdc with
    | .error e => .error e
    | .ok old_statements =>
      .ok { added := added_list old_statements current_statements
            removed := removed_list old_statements current_statements }

/-- The per-file data assembled by `CommonsFile.process_history`
(revision selection and content retrieval are external fetches; the
baseline revision id, both page contents, both parsed template lists and
both structured-data documents arrive as inputs). -/
structure DeltaRecord where
  baseline_revision : Nat
  categories : Delta String
  description : Descriptions
  captions : Delta (String × Option String)
  statements : Delta (String × Option String)
  uploaded : Nat
deriving DecidableEq, Repr

/-- Model of `CommonsFile.process_history` from the point where the baseline
revision and both contents are available: categories, description,
captions and statements in source order; an exception in the caption or
statement step aborts the file. -/
def process_history (templ field : String) (relevant_sdc : List String)
    (current_page_content baseline_page_content : String)
    (current_templates baseline_templates : List Template)
    (sdc : SdcDoc) (old_sdc : Option SdcDoc)
    (baseline_revid uploaded : Nat) : Except String DeltaRecord :=
  let categories := process_categories current_page_content baseline_page_content
  let description := process_descriptions templ field current_templates baseline_templates
  match process_captions sdc old_sdc with
  | .error e => .error e
  | .ok captions =>
    match process_statements sdc old_sdc relevant_sdc with
    | .error e => .error e
    | .ok statements =>
      .ok { baseline_revision := baseline_revid
            categories := categories
            description := description
            captions := captions
            statements := statements
            uploaded := uploaded }

/-- Well-formedness of a structured-data document's statements: the
`statements` key is present and every statement under an allow-listed
property carries the full `mainsnak.datavalue.value` chain (so no `.get`
is called on `None`). -/
def statements_wellformed (relevant_sdc : List String) (doc : SdcDoc) : Bool :=
  match doc.statements with
  | none => false
  | some stmts =>
    stmts.all (fun pys =>
      !(relevant_sdc.contains pys.1) ||
        pys.2.all (fun y =>
          match get_statement_value y with
          | .ok _ => true
          | .error _ => false))

/-- The dictionary invariant of a label set: its language keys are
pairwise distinct (Python dict keys are unique). -/
def labels_keys_nodup (doc : SdcDoc) : Bool :=
  match doc.labels with
  | none => true
  | some ls => decide (ls.map Prod.fst).Nodup

/-! ## Theorems: helper lemmas and the claims -/

/-- A list whose `getLast?` is `some a` decomposes as `dropLast ++ [a]`. -/
theorem dropLast_append_of_getLast? :
    ∀ (l : List Revision) (a : Revision), l.getLast? = some a → l.dropLast ++ [a] = l := by
  intro l
  induction l with
  | nil => intro a h; simp at h
  | cons x xs ih =>
    intro a h
    cases xs with
    | nil => simp_all
    | cons y ys =>
      have h' : (y :: ys).getLast? = some a := by
        simpa [List.getLast?] using h
      have := ih a h'
      simp [List.dropLast, this]

/-- On a list sorted by strictly increasing timestamp, `find?` returns a
match of minimal timestamp. -/
theorem find?_min_timestamp {p : Revision → Bool} :
    ∀ (l : List Revision), l.Pairwise (fun a b => a.timestamp < b.timestamp) →
      ∀ a, l.find? p = some a → ∀ r ∈ l, p r = true → a.timestamp ≤ r.timestamp := by
  intro l
  induction l with
  | nil => intro _ a h; simp at h
  | cons x xs ih =>
    intro hp a h r hr hpr
    rcases List.pairwise_cons.mp hp with ⟨hx, hxs⟩
    by_cases hpx : p x = true
    · rw [List.find?_cons_of_pos _ hpx] at h
      cases h
      rcases List.mem_cons.mp hr with rfl | hmem
      · exact Nat.le_refl _
      · exact Nat.le_of_lt (hx r hmem)
    · have hfalse : p x = false := by
        cases hpx' : p x
        · rfl
        · exact absurd hpx' hpx
      rw [List.find?_cons_of_neg _ (by simp [hfalse])] at h
      rcases List.mem_cons.mp hr with rfl | hmem
      · exact absurd hpr (by simp [hfalse])
      · exact ih hxs a h r hmem hpr

/-- Unfolding `get_baseline_revision` when no revision precedes the
cutoff. -/
theorem get_baseline_eq_fallback (cutoff : Nat) (l : List Revision)
    (h : revs_before_cutoff cutoff l = []) :
    get_baseline_revision cutoff l = get_first_rev_not_by_uploader l := by
  unfold get_baseline_revision
  rw [h]
  simp

/-- Unfolding `get_first_rev_not_by_uploader` once the uploader (oldest
revision) is known. -/
theorem get_first_rev_eq (l : List Revision) (last : Revision) (h : l.getLast? = some last) :
    get_first_rev_not_by_uploader l =
      match l.dropLast.reverse.find? (fun r => decide (r.userid ≠ last.userid)) with
      | some rev => some rev
      | none => l.head? := by
  unfold get_first_rev_not_by_uploader
  rw [h]

/-- Claim C1: for every revision list (newest first) and cutoff with at
least one revision strictly before the cutoff, `get_baseline_revision`
returns the revision with the greatest timestamp among those strictly
before the cutoff. -/
theorem baseline_is_latest_before_cutoff (cutoff : Nat) (revs : List Revision)
    (hsorted : revs.Pairwise (fun a b => b.timestamp < a.timestamp))
    (hex : ∃ r ∈ revs, r.timestamp < cutoff) :
    ∃ b, get_baseline_revision cutoff revs = some b ∧ b ∈ revs ∧ b.timestamp < cutoff ∧
      ∀ r ∈ revs, r.timestamp < cutoff → r.timestamp ≤ b.timestamp := by
  obtain ⟨r0, hr0, hr0lt⟩ := hex
  have hr0mem : r0 ∈ revs_before_cutoff cutoff revs := by
    simp [revs_before_cutoff, List.mem_filter, hr0, hr0lt]
  have hpair : (revs_before_cutoff cutoff revs).Pairwise (fun a b => b.timestamp < a.timestamp) :=
    hsorted.sublist (List.filter_sublist revs)
  cases hbef : revs_before_cutoff cutoff revs with
  | nil => rw [hbef] at hr0mem; simp at hr0mem
  | cons b rest =>
    have hbmem : b ∈ revs_before_cutoff cutoff revs := by
      rw [hbef]; exact List.mem_cons_self _ _
    refine ⟨b, ?_, List.mem_of_mem_filter hbmem, ?_, ?_⟩
    · simp [get_baseline_revision, hbef]
    · have := List.of_mem_filter hbmem
      simpa using this
    · intro r hr hrlt
      have hrmem : r ∈ revs_before_cutoff cutoff revs := by
        simp [revs_before_cutoff, List.mem_filter, hr, hrlt]
      rw [hbef] at hrmem hpair
      rcases List.mem_cons.mp hrmem with rfl | hmem
      · exact Nat.le_refl _
      · exact Nat.le_of_lt ((List.pairwise_cons.mp hpair).1 r hmem)

/-- Witness for C1: three revisions at timestamps 30, 20, 10 (newest
first), cutoff 25; the baseline is the revision at timestamp 20. -/
theorem baseline_is_latest_before_cutoff_witness :
    ∃ b, get_baseline_revision 25 [⟨3, 1, 30⟩, ⟨2, 1, 20⟩, ⟨1, 1, 10⟩] = some b ∧
      b ∈ [(⟨3, 1, 30⟩ : Revision), ⟨2, 1, 20⟩, ⟨1, 1, 10⟩] ∧ b.timestamp < 25 ∧
      ∀ r ∈ [(⟨3, 1, 30⟩ : Revision), ⟨2, 1, 20⟩, ⟨1, 1, 10⟩],
        r.timestamp < 25 → r.timestamp ≤ b.timestamp :=
  baseline_is_latest_before_cutoff 25 _ (by decide) (by decide)

/-- Claim C2 counterexample: a page with two revisions, both after the
cutoff (3) and both by user 7.  The oldest revision is `⟨1, 7, 5⟩`
(the `getLast?` of the newest-first list), but `get_baseline_revision`
returns the newest revision `⟨2, 7, 10⟩`, not the oldest. -/
theorem all_by_uploader_counterexample :
    get_baseline_revision 3 [⟨2, 7, 10⟩, ⟨1, 7, 5⟩] = some ⟨2, 7, 10⟩ ∧
    [(⟨2, 7, 10⟩ : Revision), ⟨1, 7, 5⟩].getLast? = some ⟨1, 7, 5⟩ ∧
    (⟨2, 7, 10⟩ : Revision) ≠ ⟨1, 7, 5⟩ := by decide

/-- Claim C2 (amended): if every revision postdates the cutoff and every
revision is authored by the uploader (the oldest revision's user id),
`get_baseline_revision` returns the newest revision (the head of the
newest-first list); for a single-revision page this coincides with the
oldest revision. -/
theorem all_by_uploader_returns_newest (cutoff : Nat) (revs : List Revision) (last : Revision)
    (hlast : revs.getLast? = some last)
    (hsorted : revs.Pairwise (fun a b => b.timestamp < a.timestamp))
    (hafter : ∀ r ∈ revs, cutoff ≤ r.timestamp)
    (hsame : ∀ r ∈ revs, r.userid = last.userid) :
    ∃ b, get_baseline_revision cutoff revs = some b ∧ revs.head? = some b ∧
      ∀ r ∈ revs, r.timestamp ≤ b.timestamp := by
  have hbef : revs_before_cutoff cutoff revs = [] := by
    apply List.filter_eq_nil_iff.mpr
    intro a ha
    simp only [decide_eq_true_eq]
    exact Nat.not_lt.mpr (hafter a ha)
  have hfind : revs.dropLast.reverse.find? (fun r => decide (r.userid ≠ last.userid)) = none := by
    apply List.find?_eq_none.mpr
    intro x hx
    have hx' : x ∈ revs := (List.dropLast_sublist revs).subset (List.mem_reverse.mp hx)
    simp [hsame x hx']
  cases revs with
  | nil => simp at hlast
  | cons x xs =>
    refine ⟨x, ?_, rfl, ?_⟩
    · rw [get_baseline_eq_fallback _ _ hbef, get_first_rev_eq _ _ hlast, hfind]
      rfl
    · intro r hr
      rcases List.mem_cons.mp hr with rfl | hmem
      · exact Nat.le_refl _
      · exact Nat.le_of_lt ((List.pairwise_cons.mp hsorted).1 r hmem)

/-- Witness for the amended C2: two revisions by user 7, both after
cutoff 3; the selector returns the newest one. -/
theorem all_by_uploader_returns_newest_witness :
    ∃ b, get_baseline_revision 3 [⟨2, 7, 10⟩, ⟨1, 7, 5⟩] = some b ∧
      [(⟨2, 7, 10⟩ : Revision), ⟨1, 7, 5⟩].head? = some b ∧
      ∀ r ∈ [(⟨2, 7, 10⟩ : Revision), ⟨1, 7, 5⟩], r.timestamp ≤ b.timestamp :=
  all_by_uploader_returns_newest 3 _ ⟨1, 7, 5⟩ (by decide) (by decide) (by decide) (by decide)

/-- Claim C3: if every revision postdates the cutoff and some revision is
authored by a user different from the uploader (the oldest revision's
user id), `get_baseline_revision` returns the earliest (least timestamp)
revision with a differing author. -/
theorem uploaded_after_cutoff_first_other_author (cutoff : Nat) (revs : List Revision)
    (last : Revision)
    (hlast : revs.getLast? = some last)
    (hsorted : revs.Pairwise (fun a b => b.timestamp < a.timestamp))
    (hafter : ∀ r ∈ revs, cutoff ≤ r.timestamp)
    (hex : ∃ r ∈ revs, r.userid ≠ last.userid) :
    ∃ b, get_baseline_revision cutoff revs = some b ∧ b ∈ revs ∧ b.userid ≠ last.userid ∧
      ∀ r ∈ revs, r.userid ≠ last.userid → b.timestamp ≤ r.timestamp := by
  have hbef : revs_before_cutoff cutoff revs = [] := by
    apply List.filter_eq_nil_iff.mpr
    intro a ha
    simp only [decide_eq_true_eq]
    exact Nat.not_lt.mpr (hafter a ha)
  obtain ⟨r0, hr0, hr0ne⟩ := hex
  have hdec := dropLast_append_of_getLast? revs last hlast
  have hr0' : r0 ∈ revs.dropLast.reverse := by
    rw [List.mem_reverse]
    have hsplit : r0 ∈ revs.dropLast ++ [last] := by rw [hdec]; exact hr0
    rcases List.mem_append.mp hsplit with h | h
    · exact h
    · exfalso
      have : r0 = last := by simpa using h
      exact hr0ne (by rw [this])
  have hisSome : (revs.dropLast.reverse.find? (fun r => decide (r.userid ≠ last.userid))).isSome := by
    rw [List.find?_isSome]
    exact ⟨r0, hr0', by simpa using hr0ne⟩
  obtain ⟨b, hb⟩ := Option.isSome_iff_exists.mp hisSome
  have hbmem : b ∈ revs.dropLast.reverse := List.mem_of_find?_eq_some hb
  have hbp : b.userid ≠ last.userid := by
    have := List.find?_some hb
    simpa using this
  have hbrevs : b ∈ revs := (List.dropLast_sublist revs).subset (List.mem_reverse.mp hbmem)
  refine ⟨b, ?_, hbrevs, hbp, ?_⟩
  · rw [get_baseline_eq_fallback _ _ hbef, get_first_rev_eq _ _ hlast, hb]
  · intro r hr hrne
    have hrd : r ∈ revs.dropLast.reverse := by
      rw [List.mem_reverse]
      have hsplit : r ∈ revs.dropLast ++ [last] := by rw [hdec]; exact hr
      rcases List.mem_append.mp hsplit with h | h
      · exact h
      · exfalso
        have : r = last := by simpa using h
        exact hrne (by rw [this])
    have hsorted' : revs.dropLast.reverse.Pairwise (fun a b => a.timestamp < b.timestamp) := by
      rw [List.pairwise_reverse]
      exact hsorted.sublist (List.dropLast_sublist revs)
    exact find?_min_timestamp _ hsorted' b hb r hrd (by simpa using hrne)

/-- Witness for C3: three revisions (newest first) at timestamps 30, 20,
10 by users 9, 8, 7; cutoff 5 precedes them all; the baseline is the
revision at timestamp 20, the earliest one not by uploader 7. -/
theorem uploaded_after_cutoff_first_other_author_witness :
    ∃ b, get_baseline_revision 5 [⟨3, 9, 30⟩, ⟨2, 8, 20⟩, ⟨1, 7, 10⟩] = some b ∧
      b ∈ [(⟨3, 9, 30⟩ : Revision), ⟨2, 8, 20⟩, ⟨1, 7, 10⟩] ∧
      b.userid ≠ (7 : Nat) ∧
      ∀ r ∈ [(⟨3, 9, 30⟩ : Revision), ⟨2, 8, 20⟩, ⟨1, 7, 10⟩],
        r.userid ≠ (7 : Nat) → b.timestamp ≤ r.timestamp :=
  uploaded_after_cutoff_first_other_author 5 _ ⟨1, 7, 10⟩ (by decide) (by decide)
    (by decide) (by decide)

/-- Claim C6 counterexample: two invocations of template `T`; the first
has no parameter at all, the second has `f = v`.  The claim predicts the
"no value" result (`none`) because the first matching invocation lacks
the field; the code instead consults the second invocation and returns
its value. -/
theorem first_template_only_counterexample :
    get_field_content "T" "f" [⟨"T", []⟩, ⟨"T", [("f", "v")]⟩] = some "v" ∧
    strip (⟨"T", []⟩ : Template).name = "T" ∧
    (⟨"T", []⟩ : Template).params = [] ∧
    some "v" ≠ (none : Option String) := by
  refine ⟨by decide, by decide, rfl, by simp⟩

/-- Claim C6 (amended): `get_field_content` returns the trimmed value of
the named field taken from the first template invocation whose trimmed
name equals the template name and which possesses the field; matching
invocations without the field are skipped, and `none` is returned only
when no matching invocation has the field. -/
theorem first_template_with_field_wins (info_template field_name : String) (ts : List Template) :
    get_field_content info_template field_name ts =
      get_field_content_spec info_template field_name ts := by
  induction ts with
  | nil => rfl
  | cons t rest ih =>
    by_cases hname : (strip t.name == info_template) = true
    · by_cases hfield : (t.params.any (fun p => strip p.1 == field_name)) = true
      · rw [get_field_content, if_pos hname, if_pos hfield, get_field_content_spec,
          List.find?_cons_of_pos _ (by simp [hname, hfield])]
      · rw [get_field_content, if_pos hname, if_neg hfield, get_field_content_spec,
          List.find?_cons_of_neg _ (by simp [hname, hfield]), ih, get_field_content_spec]
    · rw [get_field_content, if_neg hname, get_field_content_spec,
        List.find?_cons_of_neg _ (by simp [hname]), ih, get_field_content_spec]

/-- Claim C7: for all baseline values `A` and current values `B`
(duplicates allowed), `added_list A B` holds exactly the elements of `B`
not in `A`, `removed_list A B` exactly the elements of `A` not in `B`,
the two are disjoint, and `(A minus removed) union added` equals `B` as
sets. -/
theorem delta_is_strict_set_difference {α : Type} [DecidableEq α] (A B : List α) :
    (∀ x, x ∈ added_list A B ↔ x ∈ B ∧ x ∉ A) ∧
    (∀ x, x ∈ removed_list A B ↔ x ∈ A ∧ x ∉ B) ∧
    (∀ x, ¬(x ∈ added_list A B ∧ x ∈ removed_list A B)) ∧
    (∀ x, ((x ∈ A ∧ x ∉ removed_list A B) ∨ x ∈ added_list A B) ↔ x ∈ B) := by
  refine ⟨?_, ?_, ?_, ?_⟩
  · intro x; simp [added_list, List.mem_filter]
  · intro x; simp [removed_list, List.mem_filter]
  · intro x
    simp only [added_list, removed_list, List.mem_filter, decide_eq_true_eq]
    tauto
  · intro x
    simp only [added_list, removed_list, List.mem_filter, decide_eq_true_eq]
    constructor
    · rintro (⟨hA, hnot⟩ | ⟨hB, _⟩)
      · by_contra hB
        exact hnot ⟨hA, hB⟩
      · exact hB
    · intro hB
      by_cases hA : x ∈ A
      · exact Or.inl ⟨hA, fun h => h.2 hB⟩
      · exact Or.inr ⟨hB, hA⟩

/-- Claim C8: the `changed` flag is true iff the two extracted field
values are not identical, the "no value" result (`none`) counting as
distinct from every string; in particular a baseline without the
template and a current revision whose field is the empty string compare
as changed, with `old = none` and `new = some ""`. -/
theorem description_changed_iff_not_identical :
    (∀ (templ field : String) (cur base : List Template),
      ((process_descriptions templ field cur base).changed = true ↔
        get_field_content templ field base ≠ get_field_content templ field cur)) ∧
    (process_descriptions "T" "f" [⟨"T", [("f", "")]⟩] []).changed = true ∧
    (process_descriptions "T" "f" [⟨"T", [("f", "")]⟩] []).old = none ∧
    (process_descriptions "T" "f" [⟨"T", [("f", "")]⟩] []).new = some "" := by
  refine ⟨?_, by decide, by decide, by decide⟩
  intro templ field cur base
  simp [process_descriptions]

/-- Claim C4 evidence: baseline document with caption `en ↦ "old"`,
current document with caption `en ↦ "new"`.  `process_captions` builds
the old caption pair by reading the CURRENT label set at key `en`,
producing `("en", "new")` on both sides and hence an empty delta; the
spec-modelled computation (old texts from the baseline document itself)
reports `removed = [("en", "old")]` and `added = [("en", "new")]`.  The
removed list therefore does not contain the baseline document's own
caption texts, refuting the claim. -/
theorem old_captions_read_from_current_labels :
    process_captions ⟨some [("en", some "new")], none⟩
        (some ⟨some [("en", some "old")], none⟩) =
      .ok { added := [], removed := [] } ∧
    process_captions_spec ⟨some [("en", some "new")], none⟩
        (some ⟨some [("en", some "old")], none⟩) =
      { added := [("en", some "new")], removed := [("en", some "old")] } := by
  constructor
  · rfl
  · rfl

/-- Claim C5 evidence: two malformed baseline structured-data documents
on which processing raises instead of completing with empty data.
First, a baseline `mediainfo` slot whose document lacks the
`statements` key: the old-statements loop iterates `None` and raises a
`TypeError`.  Second, documents whose statement under the allow-listed
property `P180` lacks the `mainsnak.datavalue` chain: the value
extraction calls `.get` on `None` and raises an `AttributeError`.  In
both cases `process_statements` (and hence `process_history`) errors
rather than yielding empty statements. -/
theorem malformed_baseline_document_raises :
    process_statements ⟨none, none⟩ (some ⟨none, none⟩) ["P180"] = .error "TypeError" ∧
    process_statements ⟨none, some [("P180", [⟨none⟩])]⟩
        (some ⟨none, some [("P180", [⟨none⟩])]⟩) ["P180"] = .error "AttributeError" ∧
    process_history "T" "f" ["P180"] "" "" [] [] ⟨none, none⟩ (some ⟨none, none⟩) 1 0 =
      .error "TypeError" := by
  refine ⟨rfl, ?_, rfl⟩
  rfl

/-- A Python loop raising on some element of the iterated list raises
overall: if any element of `l` makes `f` error, `exceptMapM f l`
errors. -/
theorem exceptMapM_error_of_mem {α β : Type} (f : α → Except String β) :
    ∀ (l : List α) (a : α), a ∈ l → (∃ e, f a = .error e) →
      ∃ e, exceptMapM f l = .error e := by
  intro l
  induction l with
  | nil => intro a ha _; simp at ha
  | cons x xs ih =>
    intro a ha h
    obtain ⟨e, he⟩ := h
    rcases List.mem_cons.mp ha with rfl | hmem
    · exact ⟨e, by simp [exceptMapM, he]⟩
    · match hfx : f x with
      | .error e2 => exact ⟨e2, by simp [exceptMapM, hfx]⟩
      | .ok b =>
        obtain ⟨e2, he2⟩ := ih a hmem ⟨e, he⟩
        exact ⟨e2, by simp [exceptMapM, hfx, he2]⟩

/-- Claim C10: whenever the baseline document's label set contains a key
that is absent from the current label set (in particular when the
current label set is absent entirely), `process_captions` raises instead
of returning a delta. -/
theorem process_captions_raises_on_missing_current_label (sdc : SdcDoc) (doc : SdcDoc)
    (ols : List (String × Option String)) (key : String) (text : Option String)
    (hlabels : doc.labels = some ols)
    (hmem : (key, text) ∈ ols)
    (habsent : sdc.labels = none ∨
      ∃ ls, sdc.labels = some ls ∧ lookup ls key = none) :
    ∃ e, process_captions sdc (some doc) = .error e := by
  have hentry : ∃ e, old_caption_entry sdc.labels key = .error e := by
    rcases habsent with h | ⟨ls, hls, hnone⟩
    · exact ⟨"AttributeError", by simp [old_caption_entry, h]⟩
    · exact ⟨"AttributeError", by simp [old_caption_entry, hls, hnone]⟩
  obtain ⟨e, he⟩ :=
    exceptMapM_error_of_mem (fun p => old_caption_entry sdc.labels p.1) ols
      (key, text) hmem hentry
  have hne : ols.isEmpty = false := by
    cases ols
    · simp at hmem
    · rfl
  have holdlist : old_captions_list sdc.labels (some doc) = .error e := by
    simp only [old_captions_list, hlabels]
    rw [if_neg (by simp [hne])]
    exact he
  exact ⟨e, by simp [process_captions, holdlist]⟩

/-- Witness for C10: current document without labels, baseline document
with an `en` caption; the caption step raises. -/
theorem process_captions_raises_witness :
    ∃ e, process_captions ⟨none, none⟩ (some ⟨some [("en", some "x")], none⟩) = .error e :=
  process_captions_raises_on_missing_current_label ⟨none, none⟩
    ⟨some [("en", some "x")], none⟩ [("en", some "x")] "en" (some "x")
    rfl (by simp) (Or.inl rfl)

/-- The added list of a list against itself is empty. -/
theorem added_list_self {α : Type} [DecidableEq α] (l : List α) : added_list l l = [] := by
  simp [added_list, List.filter_eq_nil_iff]

/-- The removed list of a list against itself is empty. -/
theorem removed_list_self {α : Type} [DecidableEq α] (l : List α) : removed_list l l = [] := by
  simp [removed_list, List.filter_eq_nil_iff]

/-- Lookup via `dict.get` on an association list with pairwise distinct keys
recovers each entry's own payload. -/
theorem lookup_self_of_nodup {α : Type} :
    ∀ (ls : List (String × α)), (ls.map Prod.fst).Nodup →
      ∀ k v, (k, v) ∈ ls → lookup ls k = some v := by
  intro ls
  induction ls with
  | nil => intro _ k v h; simp at h
  | cons p rest ih =>
    intro hnd k v h
    rw [List.map_cons] at hnd
    have hnd' := List.nodup_cons.mp hnd
    rcases List.mem_cons.mp h with heq | hmem
    · cases heq
      simp [lookup]
    · have hp1 : p.1 ≠ k := by
        intro hcontra
        apply hnd'.1
        rw [hcontra]
        exact List.mem_map_of_mem Prod.fst hmem
      unfold lookup
      rw [List.find?_cons_of_neg _ (by simp [hp1])]
      exact ih hnd'.2 k v hmem

/-- A loop whose every iteration succeeds with the image of `g` collects
exactly the mapped list. -/
theorem exceptMapM_ok_of_forall {α β : Type} (f : α → Except String β) (g : α → β) :
    ∀ l : List α, (∀ a ∈ l, f a = .ok (g a)) → exceptMapM f l = .ok (l.map g) := by
  intro l
  induction l with
  | nil => intro _; rfl
  | cons x xs ih =>
    intro h
    have hx := h x (List.mem_cons_self _ _)
    have hxs := ih (fun a ha => h a (List.mem_cons_of_mem _ ha))
    simp [exceptMapM, hx, hxs]

/-- A loop whose every iteration succeeds collects some list. -/
theorem exceptMapM_ok_of_exists {α β : Type} (f : α → Except String β) :
    ∀ l : List α, (∀ a ∈ l, ∃ b, f a = .ok b) → ∃ bs, exceptMapM f l = .ok bs := by
  intro l
  induction l with
  | nil => intro _; exact ⟨[], rfl⟩
  | cons x xs ih =>
    intro h
    obtain ⟨b, hb⟩ := h x (List.mem_cons_self _ _)
    obtain ⟨bs, hbs⟩ := ih (fun a ha => h a (List.mem_cons_of_mem _ ha))
    exact ⟨b :: bs, by simp [exceptMapM, hb, hbs]⟩

/-- On a well-formed statements map the extraction loop completes. -/
theorem extract_pairs_ok_of_wellformed (relevant : List String) :
    ∀ stmts : List (String × List StatementValue),
      stmts.all (fun pys =>
        !(relevant.contains pys.1) ||
          pys.2.all (fun y =>
            match get_statement_value y with
            | .ok _ => true
            | .error _ => false)) = true →
      ∃ l, extract_pairs relevant stmts = .ok l := by
  intro stmts
  induction stmts with
  | nil => intro _; exact ⟨[], rfl⟩
  | cons pys rest ih =>
    intro hall
    rw [List.all_cons, Bool.and_eq_true] at hall
    obtain ⟨hhead, htail⟩ := hall
    obtain ⟨tl, htl⟩ := ih htail
    obtain ⟨prop, ys⟩ := pys
    by_cases hrel : relevant.contains prop = true
    · have hsnaks : ∀ y ∈ ys, ∃ v, get_statement_value y = .ok v := by
        intro y hy
        rw [hrel] at hhead
        simp only [Bool.not_true, Bool.false_or, List.all_eq_true] at hhead
        have hy' := hhead y hy
        match hv : get_statement_value y with
        | .ok v => exact ⟨v, rfl⟩
        | .error e => rw [hv] at hy'; simp at hy'
      obtain ⟨vals, hvals⟩ := exceptMapM_ok_of_exists get_statement_value ys hsnaks
      have hrel' : prop ∈ relevant := by simpa using hrel
      exact ⟨vals.map (fun v => (prop, v)) ++ tl, by
        simp [extract_pairs, hrel', hvals, htl]⟩
    · have hrel' : prop ∉ relevant := by simpa using hrel
      exact ⟨tl, by simp [extract_pairs, hrel', htl]⟩

/-- Running `process_captions` over identical documents (with the dict key
invariant) yields an empty delta. -/
theorem process_captions_self (sdc : SdcDoc) (hnd : labels_keys_nodup sdc = true) :
    process_captions sdc (some sdc) = .ok ⟨[], []⟩ := by
  match hl : sdc.labels with
  | none =>
    simp [process_captions, old_captions_list, current_captions, hl, added_list, removed_list]
  | some ls =>
    have hnd' : (ls.map Prod.fst).Nodup := by
      unfold labels_keys_nodup at hnd
      rw [hl] at hnd
      exact of_decide_eq_true hnd
    by_cases hemp : ls.isEmpty = true
    · simp [process_captions, old_captions_list, current_captions, hl, hemp, added_list,
        removed_list]
    · have hmapm :
          exceptMapM (fun p => old_caption_entry (some ls) p.1) ls =
            .ok (ls.map (fun p => (p.1, (lookup ls p.1).getD none))) := by
        apply exceptMapM_ok_of_forall
        intro p hp
        have hlk := lookup_self_of_nodup ls hnd' p.1 p.2 (by simpa using hp)
        simp [old_caption_entry, hlk]
      simp [process_captions, old_captions_list, current_captions, hl, hemp, hmapm,
        added_list_self, removed_list_self]

/-- Running `process_statements` over identical well-formed documents yields an
empty delta. -/
theorem process_statements_self (sdc : SdcDoc) (relevant : List String)
    (hwf : statements_wellformed relevant sdc = true) :
    process_statements sdc (some sdc) relevant = .ok ⟨[], []⟩ := by
  match hs : sdc.statements with
  | none =>
    exfalso
    unfold statements_wellformed at hwf
    rw [hs] at hwf
    exact Bool.false_ne_true hwf
  | some stmts =>
    have hall := hwf
    unfold statements_wellformed at hall
    rw [hs] at hall
    obtain ⟨l, hl⟩ := extract_pairs_ok_of_wellformed relevant stmts hall
    by_cases hemp : stmts.isEmpty = true
    · have hnil : stmts = [] := by
        cases stmts with
        | nil => rfl
        | cons a as => simp at hemp
      subst hnil
      simp [process_statements, current_statements_list, old_statements_list, hs,
        extract_pairs, added_list, removed_list]
    · simp [process_statements, current_statements_list, old_statements_list, hs, hemp, hl,
        added_list_self, removed_list_self]

/-- Claim C9 counterexample: identical baseline and current snapshots
(same wikitext, same template list, same structured-data document with
an `en` caption and no `statements` key).  Instead of a `DeltaRecord`
with empty deltas, `process_history` raises in the statement step,
because the baseline document lacking the `statements` key makes the
old-statements loop iterate `None`. -/
theorem identical_snapshots_counterexample :
    process_history "T" "f" ["P180"] "" "" [] []
        ⟨some [("en", some "x")], none⟩ (some ⟨some [("en", some "x")], none⟩) 1 0 =
      .error "TypeError" := rfl

/-- Claim C9 (amended): for identical baseline and current snapshots
whose shared structured-data document is well-formed (it has a
`statements` key, every allow-listed statement has the full main-snak
chain, and its label keys are distinct as in any dict) — or whose
baseline has no `mediainfo` slot while the current document is empty —
`process_history` produces a record with empty category, caption and
statement deltas and `changed = false`. -/
theorem identical_snapshots_empty_delta (templ field : String) (relevant_sdc : List String)
    (text : String) (ts : List Template) (sdc : SdcDoc) (old_sdc : Option SdcDoc)
    (rid up : Nat)
    (hdoc : (old_sdc = some sdc ∧ statements_wellformed relevant_sdc sdc = true ∧
        labels_keys_nodup sdc = true) ∨
      (old_sdc = none ∧ sdc = ⟨none, none⟩)) :
    ∃ rec, process_history templ field relevant_sdc text text ts ts sdc old_sdc rid up =
        .ok rec ∧
      rec.categories.added = [] ∧ rec.categories.removed = [] ∧
      rec.description.changed = false ∧
      rec.captions.added = [] ∧ rec.captions.removed = [] ∧
      rec.statements.added = [] ∧ rec.statements.removed = [] := by
  have hcat : process_categories text text = ⟨[], []⟩ := by
    simp [process_categories, added_list_self, removed_list_self]
  have hdesc : (process_descriptions templ field ts ts).changed = false := by
    simp [process_descriptions]
  rcases hdoc with ⟨hold, hwf, hnd⟩ | ⟨hold, hsdc⟩
  · subst hold
    have hcapt := process_captions_self sdc hnd
    have hstmt := process_statements_self sdc relevant_sdc hwf
    refine ⟨⟨rid, ⟨[], []⟩, process_descriptions templ field ts ts, ⟨[], []⟩, ⟨[], []⟩, up⟩,
      ?_, rfl, rfl, hdesc, rfl, rfl, rfl, rfl⟩
    simp [process_history, hcapt, hstmt, hcat]
  · subst hold
    subst hsdc
    have hcapt : process_captions ⟨none, none⟩ none = .ok ⟨[], []⟩ := rfl
    have hstmt : process_statements ⟨none, none⟩ none relevant_sdc = .ok ⟨[], []⟩ := rfl
    refine ⟨⟨rid, ⟨[], []⟩, process_descriptions templ field ts ts, ⟨[], []⟩, ⟨[], []⟩, up⟩,
      ?_, rfl, rfl, hdesc, rfl, rfl, rfl, rfl⟩
    simp [process_history, hcapt, hstmt, hcat]

/-- Witness for the amended C9: a concrete identical snapshot with one
caption, one well-formed `P180` statement and one template field. -/
theorem identical_snapshots_empty_delta_witness :
    ∃ rec, process_history "T" "f" ["P180"] "t" "t" [⟨"T", [("f", "v")]⟩] [⟨"T", [("f", "v")]⟩]
        ⟨some [("en", some "x")], some [("P180", [⟨some ⟨some ⟨some ⟨some "Q1"⟩⟩⟩⟩])]⟩
        (some ⟨some [("en", some "x")], some [("P180", [⟨some ⟨some ⟨some ⟨some "Q1"⟩⟩⟩⟩])]⟩)
        1 0 = .ok rec ∧
      rec.categories.added = [] ∧ rec.categories.removed = [] ∧
      rec.description.changed = false ∧
      rec.captions.added = [] ∧ rec.captions.removed = [] ∧
      rec.statements.added = [] ∧ rec.statements.removed = [] :=
  identical_snapshots_empty_delta "T" "f" ["P180"] "t" [⟨"T", [("f", "v")]⟩]
    ⟨some [("en", some "x")], some [("P180", [⟨some ⟨some ⟨some ⟨some "Q1"⟩⟩⟩⟩])]⟩
    (some ⟨some [("en", some "x")], some [("P180", [⟨some ⟨some ⟨some ⟨some "Q1"⟩⟩⟩⟩])]⟩)
    1 0 (Or.inl ⟨rfl, by decide, by decide⟩)

end CommonsDiff
